import Mathlib

/-!
Shallow embedding of `src/anim_bake.py` (tool `AnimBake`): a Maya script that
normalizes first/last-key tangents, bakes animation curves over a padded
window, and optionally trims the result back to the timeline range.

The host application (Maya, accessed through `pymel`/`cmds`) is modelled as:
  * a `Host` record answering the query calls the script makes
    (playback range, selection, curve discovery, animation-layer queries);
  * a `Scene` assigning to each curve name its list of keys, mutated by the
    tangent edits the script performs;
  * a trace of `Event`s recording every mutating host call the script issues
    (warnings, tangent edits, bake invocations, key inserts, key deletions).

Times, weights and angles are rationals (Maya frames/values are numeric).
-/

/-- The four tangent components a `pm.keyTangent` edit writes:
`inWeight`, `inAngle`, `outWeight`, `outAngle`. -/
structure Tangent4 where
  inWeight : ℚ
  inAngle : ℚ
  outWeight : ℚ
  outAngle : ℚ
deriving DecidableEq

/-- One keyframe of an animation curve: its time, its tangent data and its
tangent-lock flag. -/
structure Key where
  time : ℚ
  tangent : Tangent4
  locked : Bool
deriving DecidableEq

/-- A scene maps each curve name to its list of keys. -/
def Scene : Type := String → List Key

/-- Observable mutating host calls issued by the script, in order. -/
inductive Event where
  /-- Call `pm.warning msg`. -/
  | warn (msg : String) : Event
  /-- Call `pm.keyTangent(curve, edit=True, time=(t,), lock=False, **opts)`. -/
  | keyTangent (curve : String) (t : ℚ) (opts : Tangent4) : Event
  /-- Call `pm.bakeResults(curve, time=(a, b), sac=True)`. -/
  | bake (curve : String) (a b : ℚ) : Event
  /-- Call `pm.setKeyframe(curve, insert=True, time=t)`. -/
  | setKey (curve : String) (t : ℚ) : Event
  /-- Call `pm.cutKey(curve, clear=True, time=(a, b))`. -/
  | cutKey (curve : String) (a b : ℚ) : Event
deriving DecidableEq

/-- The answers the host gives to the query calls the script makes. -/
structure Host where
  /-- Answer of `pm.playbackOptions(q=True, min=True)`. -/
  playbackMin : ℚ
  /-- Answer of `pm.playbackOptions(q=True, max=True)`. -/
  playbackMax : ℚ
  /-- Answer of `pm.ls(selection=True)`. -/
  selection : List String
  /-- Answer of `pm.findKeyframe(curve=True)`: anim curves of the current
  keyframe selection; `none` models Python `None`. -/
  selectionCurves : Option (List String)
  /-- Answer of `cmds.animLayer(q=True, root=True)`. -/
  rootLayer : Option String
  /-- Answer of `cmds.animLayer(layer, q=True, children=True)`. -/
  childLayers : String → Option (List String)
  /-- Answer of the filtered history walk of line 80: the curve-type nodes of `cmds.listHistory(pdo=True, lf=False)`. -/
  historyCurves : List String

/-- Query `pm.findKeyframe(curve, which=first)`: time of the chronologically
first key of the curve. -/
def firstKeyTime (c : List Key) : Option ℚ := (c.map Key.time).min?

/-- Query `pm.findKeyframe(curve, which=last)`: time of the chronologically
last key of the curve. -/
def lastKeyTime (c : List Key) : Option ℚ := (c.map Key.time).max?

/-- Method `AnimBake.get_first_last_keys`: the pair of first and last key times. -/
def get_first_last_keys (c : List Key) : Option ℚ × Option ℚ :=
  (firstKeyTime c, lastKeyTime c)

/-- Query `pm.keyTangent(curve, q=True, ...)` at a key time: the tangent data
of the key at time `t` (`none` when no key sits at `t`). -/
def tangentAt (c : List Key) (t : ℚ) : Option Tangent4 :=
  (c.find? fun k => decide (k.time = t)).map Key.tangent

/-- Edit `pm.keyTangent(curve, edit=True, time=(t,), lock=False, **opts)`:
write all four tangent components of the key at time `t` and unlock it. -/
def keyTangentEdit (c : List Key) (t : ℚ) (opts : Tangent4) : List Key :=
  c.map fun k => if k.time = t then { k with tangent := opts, locked := false } else k

/-- The tangent options dict built in `AnimBake.bake_curves` lines 107-116:
`inWeight`/`inAngle` from the last key, `outWeight`/`outAngle` from the
first key. -/
def mirrorOpts (c : List Key) : Option Tangent4 :=
  (firstKeyTime c).bind fun t0 =>
  (lastKeyTime c).bind fun t1 =>
  (tangentAt c t0).bind fun ft =>
  (tangentAt c t1).map fun lt =>
  ⟨lt.inWeight, lt.inAngle, ft.outWeight, ft.outAngle⟩

/-- The per-curve tangent normalization of `AnimBake.bake_curves`
lines 104-119: write `mirrorOpts` onto the first key, then onto the last. -/
def normalizeTangents (c : List Key) : List Key :=
  match firstKeyTime c, lastKeyTime c, mirrorOpts c with
  | some t0, some t1, some opts => keyTangentEdit (keyTangentEdit c t0 opts) t1 opts
  | _, _, _ => c

example : firstKeyTime [⟨10, ⟨1, 0, 1, 0⟩, true⟩, ⟨50, ⟨2, 15, 2, 15⟩, true⟩] = some 10 := by
  decide

example :
    tangentAt (normalizeTangents
      [⟨10, ⟨1, 0, 3, 4⟩, true⟩, ⟨50, ⟨2, 15, 5, 6⟩, true⟩]) 10 =
    some ⟨2, 15, 3, 4⟩ := by decide

/-- The state held by an `AnimBake` instance (the attributes set in
`AnimBake.__init__` and `check_anim_layers`). -/
structure AnimBake where
  time_range : ℚ × ℚ
  anim_length : ℚ
  curves : Option (List String)
  child_layers : Option (List String)
  bake_all_layers : Bool
  has_anim_layers : Bool
  base_anim_layer : Option String
  BUFFER : ℚ
  SET_KEYS_AT : List ℚ
deriving DecidableEq

/-- Method `AnimBake.check_anim_layers`: queries the root animation layer and
its children; returns the `found_layer` flag together with the values stored
into `self.base_anim_layer` and `self.child_layers`. -/
def check_anim_layers (h : Host) : Bool × Option String × Option (List String) :=
  match h.rootLayer with
  | none => (false, none, none)
  | some b =>
      let children := h.childLayers b
      match children with
      | some (_ :: _) => (true, some b, children)
      | _ => (false, some b, children)

/-- Constructor `AnimBake.__init__(bake_all_layers, buffer_multiplier)`. -/
def mkAnimBake (h : Host) (bake_all_layers : Bool) (buffer_multiplier : ℚ) : AnimBake :=
  let time_range := (h.playbackMin, h.playbackMax)
  let anim_length := |time_range.2 - time_range.1|
  let found := check_anim_layers h
  { time_range := time_range
    anim_length := anim_length
    curves := h.selectionCurves
    child_layers := found.2.2
    bake_all_layers := bake_all_layers
    has_anim_layers := found.1
    base_anim_layer := found.2.1
    BUFFER := anim_length * buffer_multiplier
    SET_KEYS_AT := [time_range.1 - 1, time_range.2 + 1, time_range.1, time_range.2] }

/-- Method `AnimBake.add_all_layer_curves`: when anim layers are present,
replace the curve list by the curve-type nodes of the full node history. -/
def add_all_layer_curves (h : Host) (b : AnimBake) : AnimBake :=
  if b.has_anim_layers then { b with curves := some h.historyCurves } else b

/-- Method `AnimBake.curves_exist`: `True` when `self.curves is not None`,
otherwise warn that there are no curves to bake and return `False`.  The
returned event list is the (possibly empty) warning trace. -/
def curves_exist (b : AnimBake) : Bool × List Event :=
  match b.curves with
  | some _ => (true, [])
  | none => (false, [Event.warn "No curves to bake"])

/-- The body of the `for curve in self.curves` loop of
`AnimBake.bake_curves` lines 103-123: query first/last key times and their
tangent data, write the mirrored tangent options onto both keys, then call
the host bake primitive over the buffered window.  A curve on which a host
query fails (no keys) raises in Python; such a curve contributes nothing
here and no claim is made about it. -/
def bakeStep (b : AnimBake) (acc : Scene × List Event) (curve : String) :
    Scene × List Event :=
  let c := acc.1 curve
  match firstKeyTime c, lastKeyTime c, mirrorOpts c with
  | some t0, some t1, some opts =>
      (fun n => if n = curve then normalizeTangents c else acc.1 n,
       acc.2 ++ [Event.keyTangent curve t0 opts, Event.keyTangent curve t1 opts,
                 Event.bake curve (b.time_range.1 - b.BUFFER) (b.time_range.2 + b.BUFFER)])
  | _, _, _ => acc

/-- Method `AnimBake.bake_curves`: guard with `curves_exist`, then run
`bakeStep` over every curve of `self.curves`. -/
def bake_curves (b : AnimBake) (scene : Scene) : Scene × List Event :=
  let ce := curves_exist b
  if ce.1 then (b.curves.getD []).foldl (bakeStep b) (scene, ce.2)
  else (scene, ce.2)

/-- The body of the `for curve in self.curves` loop of
`AnimBake.trim_bake_to_timerange` lines 134-140: insert a key at each time
of `SET_KEYS_AT`, then cut the keys in the two buffer windows. -/
def trimStep (b : AnimBake) (evs : List Event) (curve : String) : List Event :=
  evs ++ b.SET_KEYS_AT.map (Event.setKey curve) ++
    [Event.cutKey curve (b.time_range.1 - b.BUFFER) (b.time_range.1 - 1),
     Event.cutKey curve (b.time_range.2 + 1) (b.time_range.2 + b.BUFFER)]

/-- Method `AnimBake.trim_bake_to_timerange`: guard with `curves_exist`,
then run `trimStep` over every curve of `self.curves`. -/
def trim_bake_to_timerange (b : AnimBake) : List Event :=
  let ce := curves_exist b
  if ce.1 then (b.curves.getD []).foldl (trimStep b) ce.2
  else ce.2

/-- The `AnimBake` instance `do_bake` works with: constructed with the
`bake_layers` option (buffer multiplier left at its default `2`) and, when
`bake_layers` is set, expanded by `add_all_layer_curves`. -/
def sessionOf (h : Host) (bake_layers : Bool) : AnimBake :=
  let bake := mkAnimBake h bake_layers 2
  if bake_layers then add_all_layer_curves h bake else bake

/-- Calls of the trim phase: key inserts and key deletions. -/
def Event.isTrimCall : Event → Bool
  | Event.setKey _ _ => true
  | Event.cutKey _ _ _ => true
  | _ => false

/-- Calls of the bake phase: tangent edits and bake invocations. -/
def Event.isBakeCall : Event → Bool
  | Event.keyTangent _ _ _ => true
  | Event.bake _ _ _ => true
  | _ => false

/-- Invocations of the host bake primitive `pm.bakeResults`. -/
def Event.isBakeResults : Event → Bool
  | Event.bake _ _ _ => true
  | _ => false

/-- Function `do_bake(bake_layers, trim_curves)`: on a non-empty selection,
build the session, bake, and optionally trim; otherwise only warn.  Returns the
constructed session (`none` when no session is created), the scene after
the tangent edits, and the full event trace. -/
def do_bake (h : Host) (scene : Scene) (bake_layers trim_curves : Bool) :
    Option AnimBake × Scene × List Event :=
  if h.selection.length ≠ 0 then
    let bake := sessionOf h bake_layers
    let baked := bake_curves bake scene
    let trimmed := if trim_curves then trim_bake_to_timerange bake else []
    (some bake, baked.1, baked.2 ++ trimmed)
  else
    (none, scene, [Event.warn "[anim_bake.py] Nothing selected."])

/-! ### Supporting lemmas -/

lemma tangentAt_keyTangentEdit (c : List Key) (t : ℚ) (opts : Tangent4) (t' : ℚ) :
    tangentAt (keyTangentEdit c t opts) t' =
      (tangentAt c t').map fun tg => if t' = t then opts else tg := by
  induction c with
  | nil => rfl
  | cons k ks ih =>
      by_cases hkt : k.time = t <;> by_cases hkt' : k.time = t'
      · have ht : t' = t := by rw [← hkt', hkt]
        simp [keyTangentEdit, tangentAt, hkt, hkt', ht]
      · have hne : ¬ t = t' := fun h => hkt' (by rw [hkt, h])
        simp only [keyTangentEdit, List.map_cons, tangentAt] at ih ⊢
        rw [List.find?_cons_of_neg _ (by simp [hkt, hne]),
          List.find?_cons_of_neg _ (by simp [hkt'])]
        exact ih
      · have ht : ¬ t' = t := fun h => hkt (by rw [hkt', h])
        simp [keyTangentEdit, tangentAt, hkt, hkt', ht]
      · simp only [keyTangentEdit, List.map_cons, tangentAt] at ih ⊢
        rw [List.find?_cons_of_neg _ (by simp [hkt, hkt']),
          List.find?_cons_of_neg _ (by simp [hkt'])]
        exact ih

lemma firstKeyTime_mem {c : List Key} {t : ℚ} (h : firstKeyTime c = some t) :
    ∃ k ∈ c, k.time = t := by
  have hm : t ∈ c.map Key.time := List.min?_mem (fun a b : ℚ => min_choice a b) h
  simpa using hm

lemma lastKeyTime_mem {c : List Key} {t : ℚ} (h : lastKeyTime c = some t) :
    ∃ k ∈ c, k.time = t := by
  have hm : t ∈ c.map Key.time := List.max?_mem (fun a b : ℚ => max_choice a b) h
  simpa using hm

lemma tangentAt_isSome_of_mem {c : List Key} {t : ℚ} (h : ∃ k ∈ c, k.time = t) :
    ∃ tg, tangentAt c t = some tg := by
  obtain ⟨k, hk, ht⟩ := h
  have hs : (c.find? fun k => decide (k.time = t)).isSome :=
    List.find?_isSome.mpr ⟨k, hk, by simp [ht]⟩
  obtain ⟨k', hk'⟩ := Option.isSome_iff_exists.mp hs
  exact ⟨k'.tangent, by simp [tangentAt, hk']⟩

lemma mirrorOpts_eq {c : List Key} {t0 t1 : ℚ} {ft lt : Tangent4}
    (h0 : firstKeyTime c = some t0) (h1 : lastKeyTime c = some t1)
    (hft : tangentAt c t0 = some ft) (hlt : tangentAt c t1 = some lt) :
    mirrorOpts c = some ⟨lt.inWeight, lt.inAngle, ft.outWeight, ft.outAngle⟩ := by
  simp [mirrorOpts, h0, h1, hft, hlt]

lemma normalizeTangents_eq {c : List Key} {t0 t1 : ℚ} {opts : Tangent4}
    (h0 : firstKeyTime c = some t0) (h1 : lastKeyTime c = some t1)
    (hm : mirrorOpts c = some opts) :
    normalizeTangents c = keyTangentEdit (keyTangentEdit c t0 opts) t1 opts := by
  rw [normalizeTangents, h0, h1, hm]

lemma exists_firstKeyTime {c : List Key} (h : c ≠ []) :
    ∃ t, firstKeyTime c = some t := by
  match c, h with
  | k :: ks, _ => exact ⟨_, rfl⟩

lemma exists_lastKeyTime {c : List Key} (h : c ≠ []) :
    ∃ t, lastKeyTime c = some t := by
  match c, h with
  | k :: ks, _ => exact ⟨_, rfl⟩

lemma exists_mirrorOpts {c : List Key} (h : c ≠ []) :
    ∃ t0 t1 opts, firstKeyTime c = some t0 ∧ lastKeyTime c = some t1 ∧
      mirrorOpts c = some opts := by
  obtain ⟨t0, h0⟩ := exists_firstKeyTime h
  obtain ⟨t1, h1⟩ := exists_lastKeyTime h
  obtain ⟨ft, hft⟩ := tangentAt_isSome_of_mem (firstKeyTime_mem h0)
  obtain ⟨lt, hlt⟩ := tangentAt_isSome_of_mem (lastKeyTime_mem h1)
  exact ⟨t0, t1, _, h0, h1, mirrorOpts_eq h0 h1 hft hlt⟩

lemma length_keyTangentEdit (c : List Key) (t : ℚ) (opts : Tangent4) :
    (keyTangentEdit c t opts).length = c.length := by
  simp [keyTangentEdit]

lemma length_normalizeTangents (c : List Key) :
    (normalizeTangents c).length = c.length := by
  rw [normalizeTangents]
  split <;> simp [length_keyTangentEdit]

lemma normalizeTangents_ne_nil {c : List Key} (h : c ≠ []) :
    normalizeTangents c ≠ [] := by
  intro hc
  apply h
  have hl := length_normalizeTangents c
  rw [hc] at hl
  exact List.length_eq_zero.mp hl.symm

/-- The two `pm.cutKey` windows of the trim loop and the four
`pm.setKeyframe` inserts, for one curve. -/
def trimCalls (b : AnimBake) (curve : String) : List Event :=
  b.SET_KEYS_AT.map (Event.setKey curve) ++
    [Event.cutKey curve (b.time_range.1 - b.BUFFER) (b.time_range.1 - 1),
     Event.cutKey curve (b.time_range.2 + 1) (b.time_range.2 + b.BUFFER)]

lemma foldl_trimStep (b : AnimBake) (cs : List String) (init : List Event) :
    cs.foldl (trimStep b) init = init ++ cs.flatMap (trimCalls b) := by
  induction cs generalizing init with
  | nil => simp
  | cons c cs ih => simp [trimStep, trimCalls, ih, List.append_assoc]

lemma bakeStep_events (b : AnimBake) (acc : Scene × List Event) (curve : String) :
    (bakeStep b acc curve).2 = acc.2 ∨
    ∃ t0 t1 opts, (bakeStep b acc curve).2 =
      acc.2 ++ [Event.keyTangent curve t0 opts, Event.keyTangent curve t1 opts,
                Event.bake curve (b.time_range.1 - b.BUFFER) (b.time_range.2 + b.BUFFER)] := by
  simp only [bakeStep]
  split
  · exact Or.inr ⟨_, _, _, rfl⟩
  · exact Or.inl rfl

lemma bakeStep_eq {b : AnimBake} {acc : Scene × List Event} {curve : String}
    {t0 t1 : ℚ} {opts : Tangent4}
    (h0 : firstKeyTime (acc.1 curve) = some t0)
    (h1 : lastKeyTime (acc.1 curve) = some t1)
    (hm : mirrorOpts (acc.1 curve) = some opts) :
    bakeStep b acc curve =
      (fun n => if n = curve then normalizeTangents (acc.1 curve) else acc.1 n,
       acc.2 ++ [Event.keyTangent curve t0 opts, Event.keyTangent curve t1 opts,
                 Event.bake curve (b.time_range.1 - b.BUFFER) (b.time_range.2 + b.BUFFER)]) := by
  have hn : normalizeTangents (acc.1 curve) =
      keyTangentEdit (keyTangentEdit (acc.1 curve) t0 opts) t1 opts :=
    normalizeTangents_eq h0 h1 hm
  simp only [bakeStep, h0, h1, hm, hn]

lemma foldl_bakeStep_filter (b : AnimBake) :
    ∀ (cs : List String) (acc : Scene × List Event), (∀ n, acc.1 n ≠ []) →
      ((cs.foldl (bakeStep b) acc).2.filter Event.isBakeResults) =
        acc.2.filter Event.isBakeResults ++
          cs.map fun curve =>
            Event.bake curve (b.time_range.1 - b.BUFFER) (b.time_range.2 + b.BUFFER) := by
  intro cs
  induction cs with
  | nil => intro acc _; simp
  | cons c cs ih =>
      intro acc h
      obtain ⟨t0, t1, opts, h0, h1, hm⟩ := exists_mirrorOpts (h c)
      rw [List.foldl_cons, bakeStep_eq h0 h1 hm, ih]
      · simp [List.filter_append, Event.isBakeResults]
      · intro n
        by_cases hn : n = c
        · subst hn
          simpa using normalizeTangents_ne_nil (h n)
        · simpa [hn] using h n

lemma foldl_bakeStep_not_trim (b : AnimBake) :
    ∀ (cs : List String) (acc : Scene × List Event),
      (∀ e ∈ acc.2, Event.isTrimCall e = false) →
      ∀ e ∈ (cs.foldl (bakeStep b) acc).2, Event.isTrimCall e = false := by
  intro cs
  induction cs with
  | nil => intro acc h; simpa using h
  | cons c cs ih =>
      intro acc h
      rw [List.foldl_cons]
      apply ih
      intro e he
      rcases bakeStep_events b acc c with hev | ⟨t0, t1, opts, hev⟩
      · rw [hev] at he; exact h e he
      · rw [hev] at he
        rcases List.mem_append.mp he with h' | h'
        · exact h e h'
        · have : e = Event.keyTangent c t0 opts ∨ e = Event.keyTangent c t1 opts ∨
              e = Event.bake c (b.time_range.1 - b.BUFFER) (b.time_range.2 + b.BUFFER) := by
            simpa using h'
          rcases this with rfl | rfl | rfl <;> rfl

lemma bake_curves_events_not_trim (b : AnimBake) (scene : Scene) :
    ∀ e ∈ (bake_curves b scene).2, Event.isTrimCall e = false := by
  intro e he
  rw [bake_curves] at he
  rcases hc : b.curves with _ | cs
  · simp [curves_exist, hc] at he
    subst he
    rfl
  · simp only [curves_exist, hc, if_pos, Option.getD_some] at he
    exact foldl_bakeStep_not_trim b cs (scene, []) (by intro e h; cases h) e he

lemma trim_events_not_bake (b : AnimBake) :
    ∀ e ∈ trim_bake_to_timerange b, Event.isBakeCall e = false := by
  intro e he
  rw [trim_bake_to_timerange] at he
  rcases hc : b.curves with _ | cs
  · simp [curves_exist, hc] at he
    subst he
    rfl
  · simp only [curves_exist, hc, if_pos, Option.getD_some] at he
    rw [foldl_trimStep, List.nil_append] at he
    obtain ⟨c, _, hec⟩ := List.mem_flatMap.mp he
    rcases List.mem_append.mp hec with h' | h'
    · obtain ⟨t, _, rfl⟩ := List.mem_map.mp h'
      rfl
    · have : e = Event.cutKey c (b.time_range.1 - b.BUFFER) (b.time_range.1 - 1) ∨
          e = Event.cutKey c (b.time_range.2 + 1) (b.time_range.2 + b.BUFFER) := by
        simpa using h'
      rcases this with rfl | rfl <;> rfl

lemma append_trim_after_bake {A B : List Event}
    (hA : ∀ e ∈ A, Event.isTrimCall e = false)
    (hB : ∀ e ∈ B, Event.isBakeCall e = false)
    {i j : ℕ} (hij : i ≤ j) {e f : Event}
    (hei : (A ++ B)[i]? = some e) (hfj : (A ++ B)[j]? = some f)
    (htrim : Event.isTrimCall e = true) : Event.isBakeCall f = false := by
  by_cases hiA : i < A.length
  · rw [List.getElem?_append_left hiA] at hei
    rw [hA e (List.getElem?_mem hei)] at htrim
    cases htrim
  · have hjA : A.length ≤ j := le_trans (Nat.le_of_not_lt hiA) hij
    rw [List.getElem?_append_right hjA] at hfj
    exact hB f (List.getElem?_mem hfj)

lemma foldl_bakeStep_window (b : AnimBake) :
    ∀ (cs : List String) (acc : Scene × List Event),
      (∀ c a z, Event.bake c a z ∈ acc.2 →
        a = b.time_range.1 - b.BUFFER ∧ z = b.time_range.2 + b.BUFFER) →
      ∀ c a z, Event.bake c a z ∈ (cs.foldl (bakeStep b) acc).2 →
        a = b.time_range.1 - b.BUFFER ∧ z = b.time_range.2 + b.BUFFER := by
  intro cs
  induction cs with
  | nil => intro acc h; simpa using h
  | cons c cs ih =>
      intro acc h
      rw [List.foldl_cons]
      apply ih
      intro c' a z hz
      rcases bakeStep_events b acc c with hev | ⟨t0, t1, opts, hev⟩
      · rw [hev] at hz; exact h c' a z hz
      · rw [hev] at hz
        rcases List.mem_append.mp hz with h' | h'
        · exact h c' a z h'
        · have : Event.bake c' a z = Event.keyTangent c t0 opts ∨
              Event.bake c' a z = Event.keyTangent c t1 opts ∨
              Event.bake c' a z = Event.bake c (b.time_range.1 - b.BUFFER)
                (b.time_range.2 + b.BUFFER) := by
            simpa using h'
          rcases this with h'' | h'' | h'' <;> cases h''
          exact ⟨rfl, rfl⟩

lemma bake_curves_window (b : AnimBake) (scene : Scene) :
    ∀ c a z, Event.bake c a z ∈ (bake_curves b scene).2 →
      a = b.time_range.1 - b.BUFFER ∧ z = b.time_range.2 + b.BUFFER := by
  intro c a z hz
  rw [bake_curves] at hz
  rcases hc : b.curves with _ | cs
  · simp [curves_exist, hc] at hz
  · simp only [curves_exist, hc, if_pos, Option.getD_some] at hz
    exact foldl_bakeStep_window b cs (scene, []) (by intro c' a' z' h'; cases h') c a z hz

lemma map_time_keyTangentEdit (c : List Key) (t : ℚ) (opts : Tangent4) :
    (keyTangentEdit c t opts).map Key.time = c.map Key.time := by
  simp only [keyTangentEdit, List.map_map]
  congr 1
  funext k
  by_cases hk : k.time = t <;> simp [hk]

lemma map_time_normalizeTangents (c : List Key) :
    (normalizeTangents c).map Key.time = c.map Key.time := by
  rw [normalizeTangents]
  split
  · rw [map_time_keyTangentEdit, map_time_keyTangentEdit]
  · rfl

lemma sessionOf_time_range (h : Host) (bl : Bool) :
    (sessionOf h bl).time_range = (h.playbackMin, h.playbackMax) := by
  rw [sessionOf, add_all_layer_curves]
  split <;> [skip; rfl]
  split <;> rfl

lemma sessionOf_BUFFER (h : Host) (bl : Bool) :
    (sessionOf h bl).BUFFER = |h.playbackMax - h.playbackMin| * 2 := by
  rw [sessionOf, add_all_layer_curves]
  split <;> [skip; rfl]
  split <;> rfl

lemma sessionOf_SET_KEYS_AT (h : Host) (bl : Bool) :
    (sessionOf h bl).SET_KEYS_AT =
      [h.playbackMin - 1, h.playbackMax + 1, h.playbackMin, h.playbackMax] := by
  rw [sessionOf, add_all_layer_curves]
  split <;> [skip; rfl]
  split <;> rfl

/-- A two-key test curve: keys at frames 10 and 50, tangents
(in 1, 0 / out 1, 0) at frame 10 and (in 2, 15 / out 2, 15) at frame 50. -/
def sampleCurve : List Key :=
  [⟨10, ⟨1, 0, 1, 0⟩, true⟩, ⟨50, ⟨2, 15, 2, 15⟩, true⟩]

/-- A test scene assigning `sampleCurve` to every curve name. -/
def sampleScene : Scene := fun _ => sampleCurve

/-- A test host: playback range (10, 50), one selected object, one resolved
anim curve, no animation layers. -/
def sampleHost : Host where
  playbackMin := 10
  playbackMax := 50
  selection := ["pSphere1"]
  selectionCurves := some ["curveA"]
  rootLayer := none
  childLayers := fun _ => none
  historyCurves := []

/-- Variant of `sampleHost` with an empty keyframe-curve result:
`pm.findKeyframe` found no curves, the resolved curve set is the empty list. -/
def noCurvesHost : Host :=
  { sampleHost with selectionCurves := some [] }

/-- Variant of `sampleHost` with nothing selected. -/
def emptySelectionHost : Host :=
  { sampleHost with selection := [] }

/-! ### Claims -/

/-- **C2**: for a curve with distinct first and last keys, tangent
normalization makes the first key's incoming tangent (weight, angle) the
last key's original incoming values and the last key's outgoing tangent
(weight, angle) the first key's original outgoing values (mirror swap). -/
theorem c2_tangent_mirror_swap (c : List Key) (t0 t1 : ℚ) (ft lt : Tangent4)
    (h0 : firstKeyTime c = some t0) (h1 : lastKeyTime c = some t1)
    (hne : t0 ≠ t1)
    (hft : tangentAt c t0 = some ft) (hlt : tangentAt c t1 = some lt) :
    ((tangentAt (normalizeTangents c) t0).map Tangent4.inWeight = some lt.inWeight ∧
     (tangentAt (normalizeTangents c) t0).map Tangent4.inAngle = some lt.inAngle) ∧
    ((tangentAt (normalizeTangents c) t1).map Tangent4.outWeight = some ft.outWeight ∧
     (tangentAt (normalizeTangents c) t1).map Tangent4.outAngle = some ft.outAngle) := by
  have hm := mirrorOpts_eq h0 h1 hft hlt
  have hn := normalizeTangents_eq h0 h1 hm
  refine ⟨⟨?_, ?_⟩, ?_, ?_⟩ <;>
    simp [hn, tangentAt_keyTangentEdit, hft, hlt, hne, Ne.symm hne]

/-- Witness for `c2_tangent_mirror_swap` at the spec's example curve. -/
theorem c2_tangent_mirror_swap_witness :
    ((tangentAt (normalizeTangents sampleCurve) 10).map Tangent4.inWeight = some 2 ∧
     (tangentAt (normalizeTangents sampleCurve) 10).map Tangent4.inAngle = some 15) ∧
    ((tangentAt (normalizeTangents sampleCurve) 50).map Tangent4.outWeight = some 1 ∧
     (tangentAt (normalizeTangents sampleCurve) 50).map Tangent4.outAngle = some 0) :=
  c2_tangent_mirror_swap sampleCurve 10 50 ⟨1, 0, 1, 0⟩ ⟨2, 15, 2, 15⟩
    (by decide) (by decide) (by decide) (by decide) (by decide)

/-- **C10**: tangent normalization rewrites the first key's outgoing and the
last key's incoming tangent components with their own original values,
leaves every key at another time untouched, moves no key in time, and
leaves every other curve of the scene unchanged. -/
theorem c10_normalization_frame (c : List Key) (t0 t1 : ℚ) (ft lt : Tangent4)
    (h0 : firstKeyTime c = some t0) (h1 : lastKeyTime c = some t1)
    (hft : tangentAt c t0 = some ft) (hlt : tangentAt c t1 = some lt) :
    ((tangentAt (normalizeTangents c) t0).map Tangent4.outWeight = some ft.outWeight ∧
     (tangentAt (normalizeTangents c) t0).map Tangent4.outAngle = some ft.outAngle) ∧
    ((tangentAt (normalizeTangents c) t1).map Tangent4.inWeight = some lt.inWeight ∧
     (tangentAt (normalizeTangents c) t1).map Tangent4.inAngle = some lt.inAngle) ∧
    (∀ t : ℚ, t ≠ t0 → t ≠ t1 → tangentAt (normalizeTangents c) t = tangentAt c t) ∧
    (normalizeTangents c).map Key.time = c.map Key.time ∧
    (∀ (b : AnimBake) (acc : Scene × List Event) (curve n : String),
      n ≠ curve → (bakeStep b acc curve).1 n = acc.1 n) := by
  have hm := mirrorOpts_eq h0 h1 hft hlt
  have hn := normalizeTangents_eq h0 h1 hm
  refine ⟨⟨?_, ?_⟩, ⟨?_, ?_⟩, ?_, map_time_normalizeTangents c, ?_⟩
  · simp [hn, tangentAt_keyTangentEdit, hft, hlt]
  · simp [hn, tangentAt_keyTangentEdit, hft, hlt]
  · simp [hn, tangentAt_keyTangentEdit, hft, hlt]
  · simp [hn, tangentAt_keyTangentEdit, hft, hlt]
  · intro t ht0 ht1
    simp [hn, tangentAt_keyTangentEdit, ht0, ht1]
  · intro b acc curve n hncurve
    simp only [bakeStep]
    split
    · simp [hncurve]
    · rfl

/-- Witness for `c10_normalization_frame` at the spec's example curve. -/
theorem c10_normalization_frame_witness :
    (tangentAt (normalizeTangents sampleCurve) 10).map Tangent4.outWeight = some 1 ∧
    tangentAt (normalizeTangents sampleCurve) 30 = tangentAt sampleCurve 30 :=
  ⟨(c10_normalization_frame sampleCurve 10 50 ⟨1, 0, 1, 0⟩ ⟨2, 15, 2, 15⟩
      (by decide) (by decide) (by decide) (by decide)).1.1,
   (c10_normalization_frame sampleCurve 10 50 ⟨1, 0, 1, 0⟩ ⟨2, 15, 2, 15⟩
      (by decide) (by decide) (by decide) (by decide)).2.2.1 30 (by decide) (by decide)⟩

/-- **C1** (the code at the claim's failing input): when the resolved curve
set is the empty list, `curves_exist` returns `True` and emits no warning,
and the bake phase makes no host call at all — the warning the spec
requires for an empty curve set never happens (the code only warns when
the set is `None`, contradicting the docstring of `curves_exist`). -/
theorem c1_empty_set_no_warning :
    curves_exist (mkAnimBake noCurvesHost false 2) = (true, []) ∧
    (bake_curves (mkAnimBake noCurvesHost false 2) sampleScene).2 = [] ∧
    trim_bake_to_timerange (mkAnimBake noCurvesHost false 2) = [] := by
  decide

/-- **C9**: a session whose resolved curve set is the empty list (not
`None`) passes the curve-existence check without warning, and both the
bake and the trim phase iterate over zero curves: no event is emitted and
the scene is untouched. -/
theorem c9_empty_list_silent (b : AnimBake) (scene : Scene)
    (hc : b.curves = some []) :
    curves_exist b = (true, []) ∧
    bake_curves b scene = (scene, []) ∧
    trim_bake_to_timerange b = [] := by
  have h1 : curves_exist b = (true, []) := by simp [curves_exist, hc]
  refine ⟨h1, ?_, ?_⟩
  · simp only [bake_curves]
    rw [h1]
    simp [hc]
  · simp only [trim_bake_to_timerange]
    rw [h1]
    simp [hc]

/-- Witness for `c9_empty_list_silent` at a concrete empty-list session. -/
theorem c9_empty_list_silent_witness :
    curves_exist (mkAnimBake noCurvesHost true 2) = (true, []) ∧
    bake_curves (mkAnimBake noCurvesHost true 2) sampleScene = (sampleScene, []) ∧
    trim_bake_to_timerange (mkAnimBake noCurvesHost true 2) = [] :=
  c9_empty_list_silent (mkAnimBake noCurvesHost true 2) sampleScene (by decide)

/-- **C5**: with an empty selection `do_bake` only warns: no session is
constructed, the scene is untouched and the warning is the whole trace. -/
theorem c5_nothing_selected (h : Host) (scene : Scene) (bl tc : Bool)
    (hsel : h.selection = []) :
    do_bake h scene bl tc =
      (none, scene, [Event.warn "[anim_bake.py] Nothing selected."]) := by
  simp [do_bake, hsel]

/-- Witness for `c5_nothing_selected` at a concrete host. -/
theorem c5_nothing_selected_witness :
    do_bake emptySelectionHost sampleScene false true =
      (none, sampleScene, [Event.warn "[anim_bake.py] Nothing selected."]) :=
  c5_nothing_selected emptySelectionHost sampleScene false true rfl

/-- **C6**: when the capability query found no animation layers, the
layer expansion leaves the session — in particular its resolved curve set,
still the selection-derived one — unchanged. -/
theorem c6_no_layers_noop (h : Host) (bl : Bool) (m : ℚ)
    (hno : (mkAnimBake h bl m).has_anim_layers = false) :
    add_all_layer_curves h (mkAnimBake h bl m) = mkAnimBake h bl m ∧
    (add_all_layer_curves h (mkAnimBake h bl m)).curves = h.selectionCurves := by
  have he : add_all_layer_curves h (mkAnimBake h bl m) = mkAnimBake h bl m := by
    simp [add_all_layer_curves, hno]
  exact ⟨he, by rw [he]; rfl⟩

/-- Witness for `c6_no_layers_noop`: layer-aware mode on a host with no
animation layers. -/
theorem c6_no_layers_noop_witness :
    add_all_layer_curves sampleHost (mkAnimBake sampleHost true 2) =
      mkAnimBake sampleHost true 2 ∧
    (add_all_layer_curves sampleHost (mkAnimBake sampleHost true 2)).curves =
      sampleHost.selectionCurves :=
  c6_no_layers_noop sampleHost true 2 (by decide)

/-- **C7**: the capability query is true exactly when a root animation
layer exists and has at least one child layer. -/
theorem c7_layers_present_iff (h : Host) :
    (check_anim_layers h).1 = true ↔
      ∃ r, h.rootLayer = some r ∧ ∃ l, h.childLayers r = some l ∧ l ≠ [] := by
  rcases hr : h.rootLayer with _ | r
  · simp [check_anim_layers, hr]
  · rcases hl : h.childLayers r with _ | l
    · simp [check_anim_layers, hr, hl]
    · rcases l with _ | ⟨x, xs⟩
      · simp [check_anim_layers, hr, hl]
      · simp [check_anim_layers, hr, hl]

/-- **C3**: the buffer is `anim_length * multiplier` with
`anim_length = |end - start|`, every bake-primitive invocation uses exactly
the window `(start - buffer, end + buffer)`, and with a resolved curve list
whose curves all have keys there is exactly one such invocation per curve,
in order. -/
theorem c3_bake_buffer_window (h : Host) (bl : Bool) (m : ℚ) (scene : Scene) :
    (mkAnimBake h bl m).anim_length = |h.playbackMax - h.playbackMin| ∧
    (mkAnimBake h bl m).BUFFER = |h.playbackMax - h.playbackMin| * m ∧
    (∀ (b : AnimBake) (sc : Scene) (c : String) (a z : ℚ),
        Event.bake c a z ∈ (bake_curves b sc).2 →
        a = b.time_range.1 - b.BUFFER ∧ z = b.time_range.2 + b.BUFFER) ∧
    (∀ cs, (mkAnimBake h bl m).curves = some cs → (∀ n, scene n ≠ []) →
        (bake_curves (mkAnimBake h bl m) scene).2.filter Event.isBakeResults =
          cs.map fun c =>
            Event.bake c (h.playbackMin - (mkAnimBake h bl m).BUFFER)
              (h.playbackMax + (mkAnimBake h bl m).BUFFER)) := by
  refine ⟨rfl, rfl, fun b sc => bake_curves_window b sc, ?_⟩
  intro cs hc hne
  have h1 : curves_exist (mkAnimBake h bl m) = (true, []) := by
    simp [curves_exist, hc]
  simp only [bake_curves]
  rw [h1, hc]
  simp only [Option.getD_some, if_true]
  rw [foldl_bakeStep_filter (mkAnimBake h bl m) cs (scene, []) hne]
  simp [mkAnimBake]

/-- Witness for `c3_bake_buffer_window`: time range (10, 50), multiplier 2,
one curve; buffer 80 and bake window (-70, 130). -/
theorem c3_bake_buffer_window_witness :
    (mkAnimBake sampleHost false 2).BUFFER = 80 ∧
    (bake_curves (mkAnimBake sampleHost false 2) sampleScene).2.filter
        Event.isBakeResults = [Event.bake "curveA" (-70) 130] := by
  have H := c3_bake_buffer_window sampleHost false 2 sampleScene
  have h40 : |sampleHost.playbackMax - sampleHost.playbackMin| = 40 := by
    rw [show sampleHost.playbackMax - sampleHost.playbackMin = (40 : ℚ) from by
      norm_num [sampleHost]]
    exact abs_of_nonneg (by norm_num)
  constructor
  · rw [H.2.1, h40]
    norm_num
  · have hne : ∀ n, sampleScene n ≠ [] := by
      intro n hcon
      simp [sampleScene, sampleCurve] at hcon
    rw [H.2.2.2 ["curveA"] rfl hne, H.2.1, h40]
    norm_num [sampleHost]

/-- **C4**: for each curve the trim phase inserts keys at exactly
`start - 1`, `end + 1`, `start`, `end` in that order and then deletes the
keys of the windows `(start - buffer, start - 1)` and
`(end + 1, end + buffer)` — and issues no other call. -/
theorem c4_trim_insert_four_then_cut (h : Host) (bl : Bool) (cs : List String)
    (hc : (sessionOf h bl).curves = some cs) :
    trim_bake_to_timerange (sessionOf h bl) =
      cs.flatMap fun curve =>
        [Event.setKey curve (h.playbackMin - 1), Event.setKey curve (h.playbackMax + 1),
         Event.setKey curve h.playbackMin, Event.setKey curve h.playbackMax,
         Event.cutKey curve (h.playbackMin - (sessionOf h bl).BUFFER) (h.playbackMin - 1),
         Event.cutKey curve (h.playbackMax + 1) (h.playbackMax + (sessionOf h bl).BUFFER)] := by
  have h1 : curves_exist (sessionOf h bl) = (true, []) := by
    simp [curves_exist, hc]
  have hfun : ∀ curve, trimCalls (sessionOf h bl) curve =
      [Event.setKey curve (h.playbackMin - 1), Event.setKey curve (h.playbackMax + 1),
       Event.setKey curve h.playbackMin, Event.setKey curve h.playbackMax,
       Event.cutKey curve (h.playbackMin - (sessionOf h bl).BUFFER) (h.playbackMin - 1),
       Event.cutKey curve (h.playbackMax + 1) (h.playbackMax + (sessionOf h bl).BUFFER)] := by
    intro curve
    simp [trimCalls, sessionOf_SET_KEYS_AT, sessionOf_time_range]
  simp only [trim_bake_to_timerange]
  rw [h1, hc]
  simp only [Option.getD_some, if_true]
  rw [foldl_trimStep]
  simp only [List.nil_append]
  rw [funext hfun]

/-- Witness for `c4_trim_insert_four_then_cut`: time range (10, 50), one
curve; inserts at 9, 51, 10, 50 then cuts (-70, 9) and (51, 130). -/
theorem c4_trim_insert_four_then_cut_witness :
    trim_bake_to_timerange (sessionOf sampleHost false) =
      [Event.setKey "curveA" 9, Event.setKey "curveA" 51,
       Event.setKey "curveA" 10, Event.setKey "curveA" 50,
       Event.cutKey "curveA" (-70) 9, Event.cutKey "curveA" 51 130] := by
  rw [c4_trim_insert_four_then_cut sampleHost false ["curveA"] (by decide),
    sessionOf_BUFFER]
  have h40 : |sampleHost.playbackMax - sampleHost.playbackMin| = 40 := by
    rw [show sampleHost.playbackMax - sampleHost.playbackMin = (40 : ℚ) from by
      norm_num [sampleHost]]
    exact abs_of_nonneg (by norm_num)
  rw [h40]
  norm_num [sampleHost]

/-- **C8**: phases are ordered — a trim call (key insert or key delete)
never precedes a bake-phase call (tangent edit or bake invocation) in the
trace of an invocation; with the trim option off there is no trim call at
all, and with it on (and a non-empty selection) the trace is exactly the
bake-phase trace followed by the trim-phase trace of the one session built
for this invocation. -/
theorem c8_phase_order (h : Host) (scene : Scene) (bl tc : Bool) :
    (∀ i j : ℕ, i ≤ j → ∀ e f : Event,
        ((do_bake h scene bl tc).2.2)[i]? = some e →
        ((do_bake h scene bl tc).2.2)[j]? = some f →
        Event.isTrimCall e = true → Event.isBakeCall f = false) ∧
    (tc = false → ∀ e ∈ (do_bake h scene bl tc).2.2, Event.isTrimCall e = false) ∧
    (tc = true → h.selection ≠ [] →
        (do_bake h scene bl tc).2.2 =
          (bake_curves (sessionOf h bl) scene).2 ++
            trim_bake_to_timerange (sessionOf h bl)) := by
  by_cases hs : h.selection = []
  · have hd : (do_bake h scene bl tc).2.2 =
        [Event.warn "[anim_bake.py] Nothing selected."] := by
      simp [do_bake, hs]
    refine ⟨?_, ?_, ?_⟩
    · intro i j hij e f hei hfj htrim
      rw [hd] at hei
      have he := List.getElem?_mem hei
      simp at he
      subst he
      cases htrim
    · intro _ e he
      rw [hd] at he
      simp at he
      subst he
      rfl
    · intro _ hsel
      exact absurd hs hsel
  · have hlen : h.selection.length ≠ 0 := fun h0 => hs (List.length_eq_zero.mp h0)
    have hd : (do_bake h scene bl tc).2.2 =
        (bake_curves (sessionOf h bl) scene).2 ++
          (if tc then trim_bake_to_timerange (sessionOf h bl) else []) := by
      rw [do_bake, if_pos hlen]
    have hB : ∀ e ∈ (if tc then trim_bake_to_timerange (sessionOf h bl) else []),
        Event.isBakeCall e = false := by
      cases tc
      · simp
      · simpa using trim_events_not_bake (sessionOf h bl)
    refine ⟨?_, ?_, ?_⟩
    · intro i j hij e f hei hfj htrim
      rw [hd] at hei hfj
      exact append_trim_after_bake (bake_curves_events_not_trim _ scene) hB
        hij hei hfj htrim
    · intro htc e he
      subst htc
      rw [hd] at he
      have he' : e ∈ (bake_curves (sessionOf h bl) scene).2 := by simpa using he
      exact bake_curves_events_not_trim _ scene e he'
    · intro htc _
      rw [hd, htc]
      simp

/-- Witness for `c8_phase_order`: with the trim option on and a non-empty
selection the trace is the bake trace followed by the trim trace. -/
theorem c8_phase_order_witness :
    (do_bake sampleHost sampleScene false true).2.2 =
      (bake_curves (sessionOf sampleHost false) sampleScene).2 ++
        trim_bake_to_timerange (sessionOf sampleHost false) :=
  (c8_phase_order sampleHost sampleScene false true).2.2 rfl (by decide)
